import Mathlib

/-!
Verification development for the devlink productivity dashboard.

The file shallowly embeds the core logic of the repository:
the active-tool selector (`app.py`), the conversion registry and its
render/dispatch steps (`tools/file_conversion.py`), the remote
chat-completion request helper (`tools/ai_tools.py`) and the OCR result
processing (`tools/ocr_itt.py`).  Python strings are embedded as Lean
`String` (or `List Char` where inductive reasoning over characters is
needed), dictionaries as association lists in their insertion order, and
optional-dependency flags as explicit `Bool` parameters.
-/

/- ### Tool selector (app.py) -/

/-- Initial value of `st.session_state.active_tool` (app.py lines 26-27):
the session starts with no active tool. -/
def active_tool_init : Option String := none

/-- Embedding of `set_active_tool` (app.py lines 36-40): if the stored
active identifier equals `tool_name` it is cleared to none, otherwise it
is set to `tool_name`.  The session-state slot is passed explicitly. -/
def set_active_tool (active : Option String) (tool_name : String) : Option String :=
  if active = some tool_name then none else some tool_name

/- ### Conversion registry (tools/file_conversion.py) -/

/-- One row of the `supported_conversions` table: declared input kind,
output kind, and availability flag. -/
structure ConversionEntry where
  input : String
  output : String
  available : Bool
deriving DecidableEq, Repr

/-- The "Data Conversions" category of `supported_conversions`
(file_conversion.py lines 32-37). -/
def data_conversions : List (String × ConversionEntry) :=
  [("CSV to JSON", ⟨"csv", "json", true⟩),
   ("JSON to CSV", ⟨"json", "csv", true⟩),
   ("Excel to CSV", ⟨"xlsx", "csv", true⟩),
   ("CSV to Excel", ⟨"csv", "xlsx", true⟩)]

/-- The "Text Conversions" category of `supported_conversions`
(file_conversion.py lines 44-48). -/
def text_conversions : List (String × ConversionEntry) :=
  [("JSON to YAML", ⟨"json", "yaml", true⟩),
   ("YAML to JSON", ⟨"yaml", "json", true⟩),
   ("CSV to HTML Table", ⟨"csv", "html", true⟩)]

/-- Embedding of `FileConverter.supported_conversions`
(file_conversion.py lines 26-49), parameterised by the two
optional-dependency probes `DOCX_AVAILABLE` and `PDF_AVAILABLE` computed
at import time (lines 11-22). -/
def supported_conversions (docx_available pdf_available : Bool) :
    List (String × List (String × ConversionEntry)) :=
  [("Document Conversions",
     [("DOCX to PDF", ⟨"docx", "pdf", docx_available⟩),
      ("TXT to PDF", ⟨"txt", "pdf", pdf_available⟩),
      ("MD to HTML", ⟨"md", "html", true⟩)]),
   ("Data Conversions", data_conversions),
   ("Image Conversions",
     [("PNG to JPG", ⟨"png", "jpg", true⟩),
      ("JPG to PNG", ⟨"jpg", "png", true⟩),
      ("Image to Base64", ⟨"image", "base64", true⟩),
      ("Base64 to Image", ⟨"base64", "image", true⟩)]),
   ("Text Conversions", text_conversions)]

/-- Embedding of file_conversion.py line 66: the names offered for
selection are the keys of the category whose entry has
`available == True`, in table order. -/
def available_conversions (conversions : List (String × ConversionEntry)) : List String :=
  (conversions.filter (fun kv => kv.2.available)).map (fun kv => kv.1)

/-- Outcome of the entry-listing step of `render_file_converter`:
either the user-visible "No conversions available in this category"
state followed by an early return, or a selection box offering the
filtered names. -/
inductive ListingOutcome where
  | emptyCategory
  | offer (names : List String)
deriving DecidableEq, Repr

/-- Embedding of `render_file_converter` lines 66-72: filter the
category by availability; if the filtered list is empty show the
"no conversions available" error state and return, otherwise offer the
filtered names for selection. -/
def render_entry_listing (conversions : List (String × ConversionEntry)) : ListingOutcome :=
  let avail := available_conversions conversions
  if avail.isEmpty then ListingOutcome.emptyCategory else ListingOutcome.offer avail

/- ### Conversion routing and dispatch (tools/file_conversion.py) -/

/-- Which input handler `render_file_converter` lines 82-87 send a
conversion to, decided by the declared input format. -/
inductive InputRoute where
  | base64Route
  | textRoute
  | fileRoute
deriving DecidableEq, Repr

/-- Embedding of `render_file_converter` lines 82-87: base64 input goes
to `handle_base64_input`; txt, md, json and yaml input goes to
`handle_text_input` (which dispatches through `convert_text`); every
other input format goes to `handle_file_input` (which dispatches
through `convert_file`). -/
def route_for_input (input_format : String) : InputRoute :=
  if input_format = "base64" then InputRoute.base64Route
  else if input_format = "txt" ∨ input_format = "md" ∨ input_format = "json"
      ∨ input_format = "yaml" then InputRoute.textRoute
  else InputRoute.fileRoute

/-- Result of the name-to-routine dispatch in `convert_file` /
`convert_text`: either the single conversion routine the name is mapped
to, or the fall-through branch that reports the type as not
implemented and yields no output. -/
inductive DispatchOutcome where
  | calls (routine : String)
  | notImplemented
deriving DecidableEq, Repr

/-- Embedding of the dispatch structure of `convert_file`
(file_conversion.py lines 206-229): the chain of
`conversion_type` comparisons selecting the conversion routine, with
the final else-branch reporting "not implemented". -/
def convert_file (conversion_type : String) : DispatchOutcome :=
  if conversion_type = "DOCX to PDF" then DispatchOutcome.calls "docx_to_pdf"
  else if conversion_type = "CSV to JSON" then DispatchOutcome.calls "csv_to_json"
  else if conversion_type = "JSON to CSV" then DispatchOutcome.calls "json_to_csv"
  else if conversion_type = "Excel to CSV" then DispatchOutcome.calls "excel_to_csv"
  else if conversion_type = "CSV to Excel" then DispatchOutcome.calls "csv_to_excel"
  else if conversion_type = "PNG to JPG" ∨ conversion_type = "JPG to PNG" then
    DispatchOutcome.calls "convert_image_format"
  else if conversion_type = "Image to Base64" then DispatchOutcome.calls "image_to_base64"
  else DispatchOutcome.notImplemented

/-- Embedding of the dispatch structure of `convert_text`
(file_conversion.py lines 231-248). -/
def convert_text (conversion_type : String) : DispatchOutcome :=
  if conversion_type = "JSON to YAML" then DispatchOutcome.calls "json_to_yaml"
  else if conversion_type = "YAML to JSON" then DispatchOutcome.calls "yaml_to_json"
  else if conversion_type = "MD to HTML" then DispatchOutcome.calls "md_to_html"
  else if conversion_type = "CSV to HTML Table" then DispatchOutcome.calls "csv_text_to_html"
  else DispatchOutcome.notImplemented

/- ### CSV to JSON payload (tools/file_conversion.py, csv_to_json) -/

/-- A scalar cell of the JSON payload produced by the data conversions:
either a JSON string or a JSON integer. -/
inductive JScalar where
  | s (v : String)
  | i (v : Int)
deriving DecidableEq, Repr

/-- Non-blank lines of an input text as character lists, as
`pd.read_csv` sees them (blank lines are skipped by default).
Character lists are used because they admit structural recursion. -/
def py_lines (input : String) : List (List Char) :=
  (input.toList.splitOn ('\n')).filter (fun l => l ≠ [])

/-- Numeric value of a digit string. -/
def digits_val (l : List Char) : Nat :=
  l.foldl (fun acc c => acc * 10 + (c.toNat - 48)) 0

/-- Integer literal recognition of a cell, as in the numeric dtype
inference of `pd.read_csv`: an optional leading minus sign followed by
at least one digit. -/
def int_cell? : List Char → Option Int
  | [] => none
  | c :: rest =>
    if c = '-' then
      if rest ≠ [] ∧ rest.all Char.isDigit then some (-(digits_val rest : Int)) else none
    else if (c :: rest).all Char.isDigit then some (digits_val (c :: rest) : Int)
    else none

/-- Embedding of `csv_to_json` (file_conversion.py lines 286-289):
`pd.read_csv` parses the first line as the header and infers a column
as integer dtype when every cell of the column is an integer literal,
and `DataFrame.to_json(orient=records)` serialises each row as one JSON
object mapping column names to cell values.  The result here is the
semantic payload of that JSON text: the list of row objects. -/
def csv_to_json (csv_text : String) : List (List (String × JScalar)) :=
  match py_lines csv_text with
  | [] => []
  | header :: rows =>
    let cols := header.splitOn (',')
    let cells := rows.map (fun r => r.splitOn (','))
    let colIsInt : Nat → Bool := fun j => cells.all (fun r => (int_cell? (r.getD j [])).isSome)
    cells.map (fun r =>
      cols.enum.map (fun jc =>
        (String.mk jc.2,
         if colIsInt jc.1 then JScalar.i ((int_cell? (r.getD jc.1 [])).getD 0)
         else JScalar.s (String.mk (r.getD jc.1 [])))))

/- ### JSON / YAML text conversions (tools/file_conversion.py,
json_to_yaml and yaml_to_json) -/

/-- Character strings, as lists of characters (structural recursion). -/
abbrev Chars := List Char

/-- The single-quote character. -/
def squote : Char := Char.ofNat 39

/-- The double-quote character. -/
def dquote : Char := Char.ofNat 34

/-- The opening-brace character. -/
def lbrace : Char := Char.ofNat 123

/-- The closing-brace character. -/
def rbrace : Char := Char.ofNat 125

/-- Whitespace of the serialised texts: space or newline. -/
def ws (c : Char) : Bool := c == ' ' || c == '\n'

/-- Drop leading and trailing whitespace. -/
def trim_chars (l : Chars) : Chars :=
  ((l.dropWhile ws).reverse.dropWhile ws).reverse

/-- A scalar value of a flat JSON/YAML mapping: a string or an integer.
The mapping-shaped inputs of the round-trip property carry these as
field values. -/
inductive YVal where
  | str (v : Chars)
  | int (v : Int)
deriving DecidableEq, Repr

/-- A flat JSON/YAML mapping: keys with scalar values, in text order. -/
abbrev YMap := List (Chars × YVal)

/-- Decimal digit character for a digit value. -/
def digit_char (d : Nat) : Char := Char.ofNat (48 + d)

/-- Decimal digits of a natural number, most significant first; the
first argument is structural fuel bounding the number. -/
def nat_digits_aux : Nat → Nat → Chars
  | 0, _ => []
  | fuel + 1, n =>
    if n = 0 then [] else nat_digits_aux fuel (n / 10) ++ [digit_char (n % 10)]

/-- Decimal digits of a natural number. -/
def nat_digits (n : Nat) : Chars :=
  if n = 0 then [digit_char 0] else nat_digits_aux n n

/-- Decimal representation of an integer, as printed by both
`json.dumps` and `yaml.dump` for int values. -/
def int_to_chars (n : Int) : Chars :=
  if n < 0 then '-' :: nat_digits (-n).toNat else nat_digits n.toNat

/-- Model of the PyYAML resolver condition under which a string scalar
must be single-quoted when dumped, restricted to the scalars in scope
here: strings that would otherwise read back as integers, and the empty
string. -/
def needs_quote (s : Chars) : Bool := (int_cell? s).isSome || s.isEmpty

/-- Scalar serialisation of `yaml.dump`: integers in decimal, strings
plain unless the resolver would misread them, in which case they are
single-quoted. -/
def yaml_dump_scalar : YVal → Chars
  | YVal.int n => int_to_chars n
  | YVal.str s => if needs_quote s then squote :: s ++ [squote] else s

/-- Scalar resolution of `yaml.safe_load`: a single-quoted scalar is
the quoted string, an integer literal is an int, anything else is a
plain string. -/
def yaml_parse_scalar (l : Chars) : YVal :=
  match l with
  | c :: rest =>
    if c = squote then
      if (rest.getLast? == some squote) && rest.dropLast.all (fun x => x != squote) then
        YVal.str rest.dropLast
      else YVal.str l
    else
      match int_cell? l with
      | some n => YVal.int n
      | none => YVal.str l
  | [] => YVal.str []

/-- One block-style line of `yaml.dump(default_flow_style=False)`:
`key: value`. -/
def yaml_line (e : Chars × YVal) : Chars :=
  e.1 ++ ':' :: ' ' :: yaml_dump_scalar e.2

/-- Key order of `yaml.dump`: the default `sort_keys=True` sorts the
mapping by key. -/
def sort_by_key (m : YMap) : YMap :=
  List.insertionSort (fun p q => String.mk p.1 ≤ String.mk q.1) m

/-- Model of `yaml.dump(json_data, default_flow_style=False)` for flat
mappings (file_conversion.py line 333): one `key: value` line per entry
in sorted key order, each line newline-terminated; the empty mapping
dumps in flow style as braces. -/
def yaml_dump (m : YMap) : Chars :=
  match sort_by_key m with
  | [] => [lbrace, rbrace, '\n']
  | e :: es => List.intercalate ['\n'] (((e :: es).map yaml_line) ++ [[]])

/-- One line of `yaml.safe_load` for a block mapping: the key runs to
the first colon, which must be followed by a space and the scalar. -/
def yaml_parse_line (line : Chars) : Option (Chars × YVal) :=
  match line.dropWhile (fun c => c != ':') with
  | ':' :: ' ' :: v => some (line.takeWhile (fun c => c != ':'), yaml_parse_scalar v)
  | _ => none

/-- Effectful map over a list in the Option monad, failing when any
element fails. -/
def opt_mapM {α β : Type} (f : α → Option β) : List α → Option (List β)
  | [] => some []
  | a :: as =>
    match f a, opt_mapM f as with
    | some b, some bs => some (b :: bs)
    | _, _ => none

/-- Model of `yaml.safe_load` (file_conversion.py line 342) for flat
block mappings: split the text into non-blank lines and parse each as a
`key: value` line; the sole flow-style form accepted is the empty
mapping braces. -/
def yaml_load (l : Chars) : Option YMap :=
  let lines := (l.splitOn '\n').filter (fun x => !x.isEmpty)
  if lines = [[lbrace, rbrace]] then some []
  else opt_mapM yaml_parse_line lines

/-- Scalar serialisation of `json.dumps`: strings double-quoted,
integers in decimal. -/
def json_dump_scalar : YVal → Chars
  | YVal.int n => int_to_chars n
  | YVal.str s => dquote :: s ++ [dquote]

/-- One indented member of `json.dumps(indent=2)` output:
two spaces, the quoted key, a colon and space, and the value. -/
def json_dump_entry (e : Chars × YVal) : Chars :=
  ' ' :: ' ' :: dquote :: e.1 ++ dquote :: ':' :: ' ' :: json_dump_scalar e.2

/-- Newline layout of `json.dumps(indent=2)`: every member is preceded
by a newline and the last is also followed by one (members are joined
with comma-newline and the closing brace sits on its own line). -/
def decorate : List Chars → List Chars
  | [] => []
  | [e] => ['\n' :: (e ++ ['\n'])]
  | e :: es => ('\n' :: e) :: decorate es

/-- Model of `json.dumps(yaml_data, indent=2)` (file_conversion.py line
343) for flat mappings: the members joined by commas inside braces with
two-space indentation, the empty mapping printed as bare braces. -/
def json_dump (m : YMap) : Chars :=
  match m with
  | [] => [lbrace, rbrace]
  | _ => lbrace :: (List.intercalate [','] (decorate (m.map json_dump_entry)) ++ [rbrace])

/-- JSON scalar parsing: a double-quoted string (no interior quote) or
an integer literal. -/
def json_parse_value (v : Chars) : Option YVal :=
  match v with
  | c :: rest =>
    if c = dquote then
      if (rest.getLast? == some dquote) && rest.dropLast.all (fun x => x != dquote) then
        some (YVal.str rest.dropLast)
      else none
    else (int_cell? v).map YVal.int
  | [] => none

/-- One member of a flat JSON object: optional surrounding whitespace,
a double-quoted key, a colon, and a scalar value. -/
def json_parse_entry (piece : Chars) : Option (Chars × YVal) :=
  match trim_chars piece with
  | c :: rest =>
    if c = dquote then
      match rest.dropWhile (fun x => x != dquote) with
      | _ :: ':' :: rest4 =>
        (json_parse_value (trim_chars rest4)).map
          (fun v => (rest.takeWhile (fun x => x != dquote), v))
      | _ => none
    else none
  | [] => none

/-- Model of `json.loads` (file_conversion.py line 332) for flat
mapping-shaped texts: a braced object whose members are split on commas
and parsed as quoted-key scalar members. -/
def json_parse (l : Chars) : Option YMap :=
  match l with
  | c :: rest =>
    if c = lbrace ∧ rest.getLast? = some rbrace then
      if trim_chars rest.dropLast = [] then some []
      else opt_mapM json_parse_entry (rest.dropLast.splitOn ',')
    else none
  | [] => none

/-- Embedding of `json_to_yaml` (file_conversion.py lines 328-336):
`yaml.dump(json.loads(json_text), default_flow_style=False)`; none when
the input does not parse. -/
def json_to_yaml (json_text : String) : Option String :=
  (json_parse json_text.toList).map (fun m => String.mk (yaml_dump m))

/-- Embedding of `yaml_to_json` (file_conversion.py lines 338-346):
`json.dumps(yaml.safe_load(yaml_text), indent=2)`; none when the input
does not parse. -/
def yaml_to_json (yaml_text : String) : Option String :=
  (yaml_load yaml_text.toList).map (fun m => String.mk (json_dump m))

/-- First-match association lookup, the semantic reading of a JSON
mapping. -/
def alookup (k : Chars) : YMap → Option YVal
  | [] => none
  | e :: rest => if k = e.1 then some e.2 else alookup k rest

/-- Characters that survive both serialisations verbatim: no comma, no
newline and no quote of either kind. -/
def plain_chars (l : Chars) : Bool :=
  l.all (fun c => c != ',' && c != '\n' && c != dquote && c != squote)

/-- Well-formed mapping key: non-empty, plain, and colon-free. -/
def key_ok (k : Chars) : Bool :=
  !k.isEmpty && plain_chars k && k.all (fun c => c != ':')

/-- Well-formed mapping value: string values must be plain. -/
def val_ok : YVal → Bool
  | YVal.str s => plain_chars s
  | YVal.int _ => true

/-- Well-formed mapping-shaped value: every key and value is
well-formed. -/
def yaml_safe (m : YMap) : Bool := m.all (fun e => key_ok e.1 && val_ok e.2)

/- ### Remote chat-completion request (tools/ai_tools.py) -/

/-- One element of the `messages` array of the chat-completion payload. -/
structure ChatMessage where
  role : String
  content : String
deriving DecidableEq, Repr

/-- The JSON body built by `make_api_request` (ai_tools.py lines 28-33). -/
structure ApiPayload where
  model : String
  messages : List ChatMessage
  max_tokens : Nat
  temperature : ℚ
deriving DecidableEq, Repr

/-- The HTTP request handed to `requests.post` (ai_tools.py lines 36-41):
method, URL, headers, JSON body and timeout in seconds. -/
structure ApiRequest where
  method : String
  url : String
  headers : List (String × String)
  payload : ApiPayload
  timeout : Nat
deriving DecidableEq, Repr

/-- `AITools.base_url` (ai_tools.py line 12). -/
def base_url : String := "https://openrouter.ai/api/v1"

/-- The request `make_api_request` sends: an HTTP POST to the
chat-completions endpoint with bearer-token authorization, the JSON
payload of lines 28-33, and a 30-second timeout (lines 23-41). -/
def build_chat_request (api_key : String) (messages : List ChatMessage)
    (model : String) (max_tokens : Nat) : ApiRequest :=
  { method := "POST"
    url := base_url ++ "/chat/completions"
    headers := [("Authorization", "Bearer " ++ api_key),
                ("Content-Type", "application/json")]
    payload := { model := model, messages := messages,
                 max_tokens := max_tokens, temperature := 7 / 10 }
    timeout := 30 }

/-- Outcome of the HTTP transport, abstracted over the type `J` of the
parsed response JSON: either a response with a status code, parsed JSON
body and raw body text, or a raised `requests` exception. -/
inductive HttpOutcome (J : Type) where
  | response (status : Nat) (json : J) (text : String)
  | exception (message : String)

/-- Embedding of `make_api_request` (ai_tools.py lines 14-51),
parameterised by the transport performing the POST.  Returns the value
the Python function returns together with the list of error messages
surfaced via `st.error`. -/
def make_api_request {J : Type} (transport : ApiRequest → HttpOutcome J)
    (api_key : String) (messages : List ChatMessage) (model : String)
    (max_tokens : Nat) : Option J × List String :=
  if api_key = "" then
    (none, ["❌ OpenRouter API key not found in secrets.toml"])
  else
    match transport (build_chat_request api_key messages model max_tokens) with
    | HttpOutcome.response status j text =>
      if status = 200 then (some j, [])
      else (none, ["❌ API Error: " ++ toString status ++ " - " ++ text])
    | HttpOutcome.exception msg =>
      (none, ["❌ Connection Error: " ++ msg])

/- ### Converter state (for the purity property of convert) -/

/-- Observable mutable state around a `convert_text` / `convert_file`
call: the registry held on the `FileConverter` instance
(`self.supported_conversions`) and the Streamlit session-state mapping
shared by all tools.  The bodies of `convert_text` and `convert_file`
(file_conversion.py lines 206-248) neither read nor assign either — the
dispatch result depends on `conversion_type` and the input alone — so
their stateful embedding threads the state through unchanged. -/
structure ConverterState where
  registry : List (String × List (String × ConversionEntry))
  session_state : List (String × String)
deriving DecidableEq, Repr

/-- Stateful embedding of `convert_text` (lines 231-248): the method
mutates nothing, so the state passes through unchanged and the
dispatch outcome is a function of the conversion type and text input. -/
def convert_text_step (st : ConverterState) (conversion_type : String)
    (_text_input : String) : ConverterState × DispatchOutcome :=
  (st, convert_text conversion_type)

/-- Stateful embedding of `convert_file` (lines 206-229): the method
mutates nothing, so the state passes through unchanged and the
dispatch outcome is a function of the conversion type and file input. -/
def convert_file_step (st : ConverterState) (conversion_type : String)
    (_file_input : String) : ConverterState × DispatchOutcome :=
  (st, convert_file conversion_type)

/- ### OCR result processing (tools/ocr_itt.py) -/

/-- One EasyOCR result triple `(bbox, text, confidence)`; the bounding
box and confidence types are abstract parameters (the invariant does
not depend on them). -/
structure OcrItem (α β : Type) where
  bbox : β
  text : String
  confidence : α
deriving DecidableEq, Repr

/-- One element of `results_data` built by `process_ocr_results`
(ocr_itt.py lines 144-148). -/
structure OcrResultData (α β : Type) where
  text : String
  confidence : α
  bbox : β
deriving DecidableEq, Repr

/-- The three OCR fields of `st.session_state`
(ocr_itt.py lines 151-153). -/
structure OcrSessionState (α β : Type) where
  ocr_extracted_text : String
  ocr_confidence_scores : List α
  ocr_results_data : List (OcrResultData α β)
deriving DecidableEq, Repr

/-- Model of Python `str.strip`: drop leading and trailing whitespace. -/
def py_strip (s : String) : String := s.trim

/-- The loop of `process_ocr_results` (ocr_itt.py lines 140-148):
walk the results in order, keeping only items whose stripped text is
non-empty, and build the three parallel lists `extracted_texts`,
`confidence_scores` and `results_data`. -/
def process_lists {α β : Type} :
    List (OcrItem α β) → List String × List α × List (OcrResultData α β)
  | [] => ([], [], [])
  | r :: rest =>
    let prev := process_lists rest
    if py_strip r.text ≠ "" then
      (r.text :: prev.1, r.confidence :: prev.2.1,
       ⟨r.text, r.confidence, r.bbox⟩ :: prev.2.2)
    else prev

/-- Embedding of `process_ocr_results` (ocr_itt.py lines 134-153): run
the filtering loop and store the newline-join of the kept texts, the
confidence list and the detailed results into the session state. -/
def process_ocr_results {α β : Type} (results : List (OcrItem α β)) :
    OcrSessionState α β :=
  let lists := process_lists results
  { ocr_extracted_text := String.intercalate "\n" lists.1
    ocr_confidence_scores := lists.2.1
    ocr_results_data := lists.2.2 }

/-- Embedding of `clear_results` (ocr_itt.py lines 419-424): reset the
three OCR session fields to empty. -/
def clear_results {α β : Type} (_st : OcrSessionState α β) : OcrSessionState α β :=
  { ocr_extracted_text := ""
    ocr_confidence_scores := []
    ocr_results_data := [] }

/- ### THEOREMS -/

/-- C1: the tool selector is exactly the specified two-state machine:
the initial state is Idle (no active tool); toggling x in Idle shows x;
toggling x while x is showing returns to Idle; and toggling y while
x ≠ y is showing switches to y. -/
theorem set_active_tool_state_machine :
    active_tool_init = none
    ∧ (∀ x : String, set_active_tool none x = some x)
    ∧ (∀ x : String, set_active_tool (some x) x = none)
    ∧ (∀ x y : String, y ≠ x → set_active_tool (some x) y = some y) := by
  refine ⟨rfl, fun x => rfl, fun x => by simp [set_active_tool], fun x y h => ?_⟩
  simp only [set_active_tool, if_neg (fun hxy : some x = some y => h (Option.some.inj hxy).symm)]

theorem set_active_tool_state_machine_witness :
    set_active_tool (some "Notepad") "Spreadsheet" = some "Spreadsheet" :=
  set_active_tool_state_machine.2.2.2 "Notepad" "Spreadsheet" (by decide)

/-- C2 counterexample: starting from Showing("Notepad"), two consecutive
toggles of "OCR" end in Idle, not back at "Notepad", so a double toggle
with the same identifier does not restore every starting state. -/
theorem double_toggle_not_involutive :
    set_active_tool (set_active_tool (some "Notepad") "OCR") "OCR" ≠ some "Notepad" := by
  decide

/-- C2 amended: two consecutive `toggle(x)` calls restore the prior
identifier exactly when that identifier was none or already x; from
Showing(y) with y ≠ x the pair of calls ends in Idle instead. -/
theorem double_toggle_cases (s : Option String) (x : String) :
    (s = none ∨ s = some x → set_active_tool (set_active_tool s x) x = s)
    ∧ (∀ y, s = some y → y ≠ x → set_active_tool (set_active_tool s x) x = none) := by
  constructor
  · rintro (rfl | rfl) <;> simp [set_active_tool]
  · rintro y rfl hyx
    simp only [set_active_tool, if_neg (fun h : some y = some x => hyx (Option.some.inj h))]
    simp

theorem double_toggle_cases_witness :
    set_active_tool (set_active_tool (some "OCR") "OCR") "OCR" = some "OCR"
    ∧ set_active_tool (set_active_tool (some "Notepad") "OCR") "OCR" = none :=
  ⟨(double_toggle_cases (some "OCR") "OCR").1 (Or.inr rfl),
   (double_toggle_cases (some "Notepad") "OCR").2 "Notepad" rfl (by decide)⟩

/-- C3: for every dependency-flag combination, every category of the
registry, and every entry of that category, the entry name is offered
for selection iff its availability flag is true. -/
theorem available_conversions_iff_flag :
    ∀ docx_available pdf_available : Bool,
      ((supported_conversions docx_available pdf_available).all fun cat =>
        cat.2.all fun kv =>
          (available_conversions cat.2).contains kv.1 == kv.2.available) = true := by
  decide

/-- C4: whenever the availability-filtered entry list of a category is
empty, the render step yields the user-visible empty-category state and
offers no selection. -/
theorem empty_category_listing (conversions : List (String × ConversionEntry))
    (h : available_conversions conversions = []) :
    render_entry_listing conversions = ListingOutcome.emptyCategory
    ∧ ∀ names, render_entry_listing conversions ≠ ListingOutcome.offer names := by
  have hout : render_entry_listing conversions = ListingOutcome.emptyCategory := by
    simp [render_entry_listing, h]
  exact ⟨hout, fun names hoffer => by rw [hout] at hoffer; cases hoffer⟩

theorem empty_category_listing_witness :
    render_entry_listing [("DOCX to PDF", ⟨"docx", "pdf", false⟩)]
      = ListingOutcome.emptyCategory
    ∧ ∀ names, render_entry_listing [("DOCX to PDF", ⟨"docx", "pdf", false⟩)]
      ≠ ListingOutcome.offer names :=
  empty_category_listing [("DOCX to PDF", ⟨"docx", "pdf", false⟩)] (by decide)

/-- C5: the entry "JSON to CSV" is present and marked available in the
"Data Conversions" category under every dependency-flag combination,
but its declared input kind "json" routes it to the text handler, whose
`convert_text` dispatch has no branch for it and reports the conversion
as not implemented — an available entry reaches the fall-through
branch. -/
theorem json_to_csv_reaches_not_implemented :
    (∀ docx_available pdf_available : Bool,
      ("Data Conversions", data_conversions)
        ∈ supported_conversions docx_available pdf_available)
    ∧ data_conversions.lookup "JSON to CSV" = some ⟨"json", "csv", true⟩
    ∧ "JSON to CSV" ∈ available_conversions data_conversions
    ∧ route_for_input "json" = InputRoute.textRoute
    ∧ convert_text "JSON to CSV" = DispatchOutcome.notImplemented := by
  refine ⟨fun docx_available pdf_available => ?_, by decide, by decide, by decide, by decide⟩
  simp [supported_conversions]

/-- C6 counterexample: converting "a,b\n1,2\n" with the CSV-to-JSON
routine does not produce string-valued fields — `pd.read_csv` infers
the integer dtype for both columns, so the payload is not the object
mapping "a" to the string "1" and "b" to the string "2". -/
theorem csv_to_json_values_not_strings :
    csv_to_json "a,b\n1,2\n" ≠ [[("a", JScalar.s "1"), ("b", JScalar.s "2")]] := by
  decide

/-- C6 amended: converting "a,b\n1,2\n" with the CSV-to-JSON routine
yields a JSON array with exactly one object mapping "a" to the number 1
and "b" to the number 2 (integer values, not strings). -/
theorem csv_to_json_example :
    csv_to_json "a,b\n1,2\n" = [[("a", JScalar.i 1), ("b", JScalar.i 2)]] := by
  decide

/-- C8: with a non-empty API key, the chat-completion request is a POST
with a bearer Authorization header, the JSON payload of model,
messages, max_tokens and temperature, and a 30-second timeout; a
status-200 response returns the parsed JSON with no error, a non-200
response surfaces an error with the status and body and returns none,
and a transport exception surfaces an error with the exception text and
returns none. -/
theorem make_api_request_contract {J : Type} (transport : ApiRequest → HttpOutcome J)
    (api_key : String) (messages : List ChatMessage) (model : String) (max_tokens : Nat)
    (hkey : api_key ≠ "") :
    (build_chat_request api_key messages model max_tokens).method = "POST"
    ∧ ("Authorization", "Bearer " ++ api_key)
        ∈ (build_chat_request api_key messages model max_tokens).headers
    ∧ (build_chat_request api_key messages model max_tokens).payload
        = ⟨model, messages, max_tokens, 7 / 10⟩
    ∧ (build_chat_request api_key messages model max_tokens).timeout = 30
    ∧ (∀ j text,
        transport (build_chat_request api_key messages model max_tokens)
          = HttpOutcome.response 200 j text →
        make_api_request transport api_key messages model max_tokens = (some j, []))
    ∧ (∀ status j text, status ≠ 200 →
        transport (build_chat_request api_key messages model max_tokens)
          = HttpOutcome.response status j text →
        make_api_request transport api_key messages model max_tokens
          = (none, ["❌ API Error: " ++ toString status ++ " - " ++ text]))
    ∧ (∀ msg,
        transport (build_chat_request api_key messages model max_tokens)
          = HttpOutcome.exception msg →
        make_api_request transport api_key messages model max_tokens
          = (none, ["❌ Connection Error: " ++ msg])) := by
  refine ⟨rfl, by simp [build_chat_request], rfl, rfl, ?_, ?_, ?_⟩
  · intro j text h
    simp [make_api_request, hkey, h]
  · intro status j text hstatus h
    simp [make_api_request, hkey, h, hstatus]
  · intro msg h
    simp [make_api_request, hkey, h]

theorem make_api_request_contract_witness :
    make_api_request (fun _ => HttpOutcome.response 200 (42 : Nat) "ok") "key" [] "m" 100
      = (some 42, []) :=
  (make_api_request_contract (fun _ => HttpOutcome.response 200 (42 : Nat) "ok")
    "key" [] "m" 100 (by decide)).2.2.2.2.1 42 "ok" rfl

/-- C9: convert is pure — a `convert_text` or `convert_file` call
returns the ambient state (registry and session mapping) unchanged, and
its outcome for a given conversion type and input payload is the same
whatever state it runs in. -/
theorem convert_pure (s₁ s₂ : ConverterState)
    (conversion_type text_input file_input : String) :
    (convert_text_step s₁ conversion_type text_input).1 = s₁
    ∧ (convert_text_step s₁ conversion_type text_input).2
        = (convert_text_step s₂ conversion_type text_input).2
    ∧ (convert_file_step s₁ conversion_type file_input).1 = s₁
    ∧ (convert_file_step s₁ conversion_type file_input).2
        = (convert_file_step s₂ conversion_type file_input).2 :=
  ⟨rfl, rfl, rfl, rfl⟩

/-- The three lists built by the `process_ocr_results` loop are
consistent: the texts list is the projection of the detailed results,
the score and result lists have equal length, and every kept result has
non-blank stripped text. -/
theorem process_lists_spec {α β : Type} (results : List (OcrItem α β)) :
    (process_lists results).1 = ((process_lists results).2.2).map (fun d => d.text)
    ∧ ((process_lists results).2.1).length = ((process_lists results).2.2).length
    ∧ ∀ d ∈ (process_lists results).2.2, py_strip d.text ≠ "" := by
  induction results with
  | nil => exact ⟨rfl, rfl, by simp [process_lists]⟩
  | cons r rest ih =>
    obtain ⟨h1, h2, h3⟩ := ih
    by_cases hc : py_strip r.text = ""
    · have hstep : process_lists (r :: rest) = process_lists rest := by
        simp [process_lists, hc]
      rw [hstep]
      exact ⟨h1, h2, h3⟩
    · have hstep : process_lists (r :: rest)
          = (r.text :: (process_lists rest).1,
             r.confidence :: (process_lists rest).2.1,
             OcrResultData.mk r.text r.confidence r.bbox :: (process_lists rest).2.2) := by
        simp [process_lists, hc]
      rw [hstep]
      refine ⟨by simp [h1], by simp [h2], ?_⟩
      intro d hd
      rcases List.mem_cons.mp hd with h | h
      · subst h; exact hc
      · exact h3 d h

/-- C10: after any `process_ocr_results` call the stored OCR session
state is consistent — equal lengths of the confidence and result lists,
non-whitespace text in every stored result, and the extracted text
equal to the newline-join of the stored result texts — and
`clear_results` resets all three fields to empty. -/
theorem ocr_state_consistent {α β : Type} (results : List (OcrItem α β))
    (st₀ : OcrSessionState α β) :
    (process_ocr_results results).ocr_confidence_scores.length
      = (process_ocr_results results).ocr_results_data.length
    ∧ (∀ d ∈ (process_ocr_results results).ocr_results_data, py_strip d.text ≠ "")
    ∧ (process_ocr_results results).ocr_extracted_text
      = String.intercalate "\n"
          (((process_ocr_results results).ocr_results_data).map (fun d => d.text))
    ∧ clear_results st₀ = ⟨"", [], []⟩ := by
  obtain ⟨h1, h2, h3⟩ := process_lists_spec results
  exact ⟨by simpa [process_ocr_results] using h2,
         by simpa [process_ocr_results] using h3,
         by simp [process_ocr_results, h1],
         rfl⟩

theorem ocr_state_consistent_witness :
    (process_ocr_results [OcrItem.mk 0 "hello" 1, OcrItem.mk 0 "  " 2,
        OcrItem.mk 0 "world" 3]).ocr_confidence_scores.length
      = (process_ocr_results [OcrItem.mk 0 "hello" 1, OcrItem.mk 0 "  " 2,
        OcrItem.mk (0 : Nat) "world" (3 : Nat)]).ocr_results_data.length
    ∧ (∀ d ∈ (process_ocr_results [OcrItem.mk 0 "hello" 1, OcrItem.mk 0 "  " 2,
        OcrItem.mk 0 "world" 3]).ocr_results_data, py_strip d.text ≠ "")
    ∧ (process_ocr_results [OcrItem.mk 0 "hello" 1, OcrItem.mk 0 "  " 2,
        OcrItem.mk 0 "world" 3]).ocr_extracted_text
      = String.intercalate "\n"
          (((process_ocr_results [OcrItem.mk 0 "hello" 1, OcrItem.mk 0 "  " 2,
            OcrItem.mk 0 "world" 3]).ocr_results_data).map (fun d => d.text))
    ∧ clear_results (⟨"x", [5], []⟩ : OcrSessionState Nat Nat) = ⟨"", [], []⟩ :=
  ocr_state_consistent [OcrItem.mk 0 "hello" 1, OcrItem.mk 0 "  " 2, OcrItem.mk 0 "world" 3]
    (⟨"x", [5], []⟩ : OcrSessionState Nat Nat)

/-- Dropping while a predicate holds ignores a prefix on which it
holds. -/
theorem dropWhile_append_of_all {p : Char → Bool} (a t : Chars)
    (ha : ∀ c ∈ a, p c = true) : (a ++ t).dropWhile p = t.dropWhile p := by
  induction a with
  | nil => rfl
  | cons c cs ih =>
    have hc := ha c (List.mem_cons_self c cs)
    simp only [List.cons_append, List.dropWhile_cons, hc, if_true]
    exact ih (fun x hx => ha x (List.mem_cons_of_mem c hx))

/-- Dropping while a predicate holds stops at a failing head. -/
theorem dropWhile_cons_of_false {p : Char → Bool} (c : Char) (t : Chars)
    (hc : p c = false) : (c :: t).dropWhile p = c :: t := by
  simp [List.dropWhile_cons, hc]

/-- Trimming a text that is a non-blank core surrounded by whitespace
returns the core. -/
theorem trim_sandwich (a s b : Chars) (ha : ∀ c ∈ a, ws c = true)
    (hb : ∀ c ∈ b, ws c = true) (hne : s ≠ [])
    (hhead : ∀ c, s.head? = some c → ws c = false)
    (hlast : ∀ c, s.getLast? = some c → ws c = false) :
    trim_chars (a ++ s ++ b) = s := by
  obtain ⟨c, s2, hs⟩ := List.exists_cons_of_ne_nil hne
  obtain ⟨d, r2, hrev⟩ := List.exists_cons_of_ne_nil
    (show s.reverse ≠ [] by simpa using hne)
  have hc : ws c = false := hhead c (by rw [hs]; rfl)
  have hd : ws d = false := hlast d (by rw [← List.head?_reverse, hrev]; rfl)
  have h1 : (a ++ s ++ b).dropWhile ws = s ++ b := by
    rw [List.append_assoc, dropWhile_append_of_all a (s ++ b) ha, hs, List.cons_append,
      dropWhile_cons_of_false _ _ hc, ← List.cons_append, ← hs]
  have h2 : (s ++ b).reverse.dropWhile ws = s.reverse := by
    rw [List.reverse_append, dropWhile_append_of_all b.reverse s.reverse
      (fun x hx => hb x (List.mem_reverse.mp hx)), hrev, dropWhile_cons_of_false _ _ hd, ← hrev]
  rw [trim_chars, h1, h2, List.reverse_reverse]

/-- A text that trims to nothing is all whitespace. -/
theorem all_ws_of_trim_eq_nil (l : Chars) (h : trim_chars l = []) :
    ∀ c ∈ l, ws c = true := by
  rw [trim_chars] at h
  have h2 : (l.dropWhile ws).reverse.dropWhile ws = [] := by
    simpa using congrArg List.reverse h
  have h3 := List.dropWhile_eq_nil_iff.mp h2
  intro c hc
  rw [← List.takeWhile_append_dropWhile (p := ws) (l := l)] at hc
  rcases List.mem_append.mp hc with h4 | h4
  · exact List.mem_takeWhile_imp h4
  · exact h3 c (List.mem_reverse.mpr h4)

/-- Appending one digit multiplies the value by ten and adds the
digit. -/
theorem digits_val_append (l : Chars) (c : Char) :
    digits_val (l ++ [c]) = digits_val l * 10 + (c.toNat - 48) := by
  simp [digits_val, List.foldl_append]

/-- Code point of a digit character. -/
theorem digit_char_toNat (d : Nat) (h : d < 10) : (digit_char d).toNat = 48 + d := by
  interval_cases d <;> decide

/-- A digit character is a digit. -/
theorem digit_char_isDigit (d : Nat) (h : d < 10) : (digit_char d).isDigit = true := by
  interval_cases d <;> decide

/-- The fuelled digit printer prints the value back and prints only
digits, for sufficient fuel. -/
theorem nat_digits_aux_spec (fuel : Nat) : ∀ n, n ≤ fuel →
    digits_val (nat_digits_aux fuel n) = n
    ∧ ∀ c ∈ nat_digits_aux fuel n, c.isDigit = true := by
  induction fuel with
  | zero =>
    intro n hn
    have hz : n = 0 := Nat.le_zero.mp hn
    subst hz
    exact ⟨rfl, by simp [nat_digits_aux]⟩
  | succ fuel ih =>
    intro n hn
    by_cases hz : n = 0
    · subst hz
      exact ⟨rfl, by simp [nat_digits_aux]⟩
    · have hdiv : n / 10 ≤ fuel := by
        have h10 : n / 10 < n := Nat.div_lt_self (Nat.pos_of_ne_zero hz) (by omega)
        omega
      obtain ⟨hval, hdig⟩ := ih (n / 10) hdiv
      constructor
      · simp only [nat_digits_aux, if_neg hz]
        rw [digits_val_append, hval, digit_char_toNat _ (Nat.mod_lt n (by omega))]
        omega
      · intro c hc
        simp only [nat_digits_aux, if_neg hz] at hc
        rcases List.mem_append.mp hc with h | h
        · exact hdig c h
        · rcases List.mem_singleton.mp h with rfl
          exact digit_char_isDigit _ (Nat.mod_lt n (by omega))

/-- The digit printer never prints the empty string. -/
theorem nat_digits_ne_nil (n : Nat) : nat_digits n ≠ [] := by
  rw [nat_digits]
  by_cases hz : n = 0
  · simp [hz]
  · rw [if_neg hz]
    obtain ⟨m, rfl⟩ : ∃ m, n = m + 1 := ⟨n - 1, by omega⟩
    simp only [nat_digits_aux, if_neg hz]
    simp

/-- The digit printer prints the value back and prints only digits. -/
theorem nat_digits_spec (n : Nat) :
    digits_val (nat_digits n) = n ∧ ∀ c ∈ nat_digits n, c.isDigit = true := by
  rw [nat_digits]
  by_cases hz : n = 0
  · subst hz
    simp only [if_pos rfl]
    exact ⟨by decide, by decide⟩
  · rw [if_neg hz]
    exact nat_digits_aux_spec n n (le_refl n)

/-- A digit character is none of the structural characters of the
serialised texts and is not whitespace. -/
theorem isDigit_char_facts (c : Char) (h : c.isDigit = true) :
    c ≠ '-' ∧ c ≠ ',' ∧ c ≠ '\n' ∧ c ≠ ':' ∧ c ≠ squote ∧ c ≠ dquote ∧ ws c = false := by
  have hsp : c ≠ ' ' := fun hc => by rw [hc] at h; exact absurd h (by decide)
  have hnl : c ≠ '\n' := fun hc => by rw [hc] at h; exact absurd h (by decide)
  refine ⟨fun hc => by rw [hc] at h; exact absurd h (by decide),
    fun hc => by rw [hc] at h; exact absurd h (by decide), hnl,
    fun hc => by rw [hc] at h; exact absurd h (by decide),
    fun hc => by rw [hc] at h; exact absurd h (by decide),
    fun hc => by rw [hc] at h; exact absurd h (by decide), ?_⟩
  simp [ws, hsp, hnl]

/-- Every character of a printed integer is the minus sign or a
digit. -/
theorem int_to_chars_facts (n : Int) :
    ∀ c ∈ int_to_chars n, c = '-' ∨ c.isDigit = true := by
  intro c hc
  rw [int_to_chars] at hc
  by_cases hneg : n < 0
  · rw [if_pos hneg] at hc
    rcases List.mem_cons.mp hc with rfl | h
    · exact Or.inl rfl
    · exact Or.inr ((nat_digits_spec _).2 c h)
  · rw [if_neg hneg] at hc
    exact Or.inr ((nat_digits_spec _).2 c hc)

/-- A printed integer is non-empty. -/
theorem int_to_chars_ne_nil (n : Int) : int_to_chars n ≠ [] := by
  rw [int_to_chars]
  by_cases hneg : n < 0
  · rw [if_pos hneg]; exact List.cons_ne_nil _ _
  · rw [if_neg hneg]; exact nat_digits_ne_nil _

/-- Printed integers contain no structural characters and no
whitespace. -/
theorem int_to_chars_plain (n : Int) :
    ∀ c ∈ int_to_chars n, c ≠ ',' ∧ c ≠ '\n' ∧ c ≠ squote ∧ c ≠ dquote ∧ ws c = false := by
  intro c hc
  rcases int_to_chars_facts n c hc with rfl | h
  · exact ⟨by decide, by decide, by decide, by decide, by decide⟩
  · obtain ⟨_, h1, h2, _, h3, h4, h5⟩ := isDigit_char_facts c h
    exact ⟨h1, h2, h3, h4, h5⟩

/-- The integer recogniser reads a printed integer back. -/
theorem int_cell?_int_to_chars (n : Int) : int_cell? (int_to_chars n) = some n := by
  rw [int_to_chars]
  by_cases hneg : n < 0
  · rw [if_pos hneg]
    have hd := nat_digits_spec (-n).toNat
    have hne := nat_digits_ne_nil (-n).toNat
    have hall : (nat_digits (-n).toNat).all Char.isDigit = true :=
      List.all_eq_true.mpr (fun c hc => hd.2 c hc)
    simp only [int_cell?, if_pos rfl, if_pos (And.intro hne hall)]
    rw [hd.1]
    have : (((-n).toNat : Int)) = -n := Int.toNat_of_nonneg (by omega)
    rw [this]
    simp
  · rw [if_neg hneg]
    obtain ⟨c, rest, hcons⟩ := List.exists_cons_of_ne_nil (nat_digits_ne_nil n.toNat)
    have hd := nat_digits_spec n.toNat
    have hcd : c.isDigit = true := hd.2 c (by rw [hcons]; exact List.mem_cons_self _ _)
    have hcm : c ≠ '-' := (isDigit_char_facts c hcd).1
    have hall : (c :: rest).all Char.isDigit = true := by
      rw [← hcons]; exact List.all_eq_true.mpr (fun x hx => hd.2 x hx)
    rw [hcons]
    simp only [int_cell?, if_neg hcm, if_pos hall]
    rw [← hcons, hd.1]
    rw [Int.toNat_of_nonneg (by omega)]

/-- Taking while a predicate holds collects exactly a satisfying prefix
up to a failing separator. -/
theorem takeWhile_append_stop {p : Char → Bool} (k : Chars) (c : Char) (t : Chars)
    (hk : ∀ x ∈ k, p x = true) (hc : p c = false) :
    (k ++ c :: t).takeWhile p = k := by
  induction k with
  | nil => simp [List.takeWhile_cons, hc]
  | cons a as ih =>
    have ha := hk a (List.mem_cons_self a as)
    simp only [List.cons_append, List.takeWhile_cons, ha, if_true]
    rw [ih (fun x hx => hk x (List.mem_cons_of_mem a hx))]

/-- Dropping while a predicate holds stops exactly at a failing
separator after a satisfying prefix. -/
theorem dropWhile_append_stop {p : Char → Bool} (k : Chars) (c : Char) (t : Chars)
    (hk : ∀ x ∈ k, p x = true) (hc : p c = false) :
    (k ++ c :: t).dropWhile p = c :: t := by
  rw [dropWhile_append_of_all k (c :: t) hk]
  exact dropWhile_cons_of_false c t hc

/-- Mapping then traversing with a left inverse succeeds with the
original list. -/
theorem opt_mapM_map {α β : Type} (f : β → Option α) (g : α → β) (l : List α)
    (h : ∀ a ∈ l, f (g a) = some a) : opt_mapM f (l.map g) = some l := by
  induction l with
  | nil => rfl
  | cons a as ih =>
    simp only [List.map_cons, opt_mapM, h a (List.mem_cons_self a as),
      ih (fun x hx => h x (List.mem_cons_of_mem a hx))]

/-- Unpacking of the plain-characters check. -/
theorem plain_chars_spec (s : Chars) (h : plain_chars s = true) :
    ∀ c ∈ s, c ≠ ',' ∧ c ≠ '\n' ∧ c ≠ dquote ∧ c ≠ squote := by
  intro c hc
  have hx := List.all_eq_true.mp h c hc
  simp only [Bool.and_eq_true, bne_iff_ne, ne_eq] at hx
  exact ⟨hx.1.1.1, hx.1.1.2, hx.1.2, hx.2⟩

/-- Unpacking of the key well-formedness check. -/
theorem key_ok_spec (k : Chars) (h : key_ok k = true) :
    k ≠ [] ∧ ∀ c ∈ k, c ≠ ',' ∧ c ≠ '\n' ∧ c ≠ dquote ∧ c ≠ squote ∧ c ≠ ':' := by
  simp only [key_ok, Bool.and_eq_true] at h
  obtain ⟨⟨hne, hplain⟩, hcolon⟩ := h
  refine ⟨?_, fun c hc => ?_⟩
  · intro h0; rw [h0] at hne; simp at hne
  · obtain ⟨h1, h2, h3, h4⟩ := plain_chars_spec k hplain c hc
    have h5 := List.all_eq_true.mp hcolon c hc
    simp only [bne_iff_ne, ne_eq] at h5
    exact ⟨h1, h2, h3, h4, h5⟩

/-- Unpacking of the mapping well-formedness check. -/
theorem yaml_safe_mem (m : YMap) (h : yaml_safe m = true) :
    ∀ e ∈ m, key_ok e.1 = true ∧ val_ok e.2 = true := by
  intro e he
  have hx := List.all_eq_true.mp h e he
  simpa [Bool.and_eq_true] using hx

/-- Mapping well-formedness is preserved by permutation. -/
theorem yaml_safe_of_perm {a b : YMap} (hp : a.Perm b) (h : yaml_safe a = true) :
    yaml_safe b = true := by
  apply List.all_eq_true.mpr
  intro e he
  exact List.all_eq_true.mp h e (hp.mem_iff.mpr he)

/-- Unfolding of the YAML scalar parser on a non-empty scalar. -/
theorem yaml_parse_scalar_cons (c : Char) (rest : Chars) :
    yaml_parse_scalar (c :: rest) =
      if c = squote then
        if (rest.getLast? == some squote) && rest.dropLast.all (fun x => x != squote) then
          YVal.str rest.dropLast
        else YVal.str (c :: rest)
      else
        match int_cell? (c :: rest) with
        | some n => YVal.int n
        | none => YVal.str (c :: rest) := rfl

/-- The YAML scalar parser inverts the YAML scalar serialiser on
well-formed values. -/
theorem yaml_parse_scalar_dump (v : YVal) (hv : val_ok v = true) :
    yaml_parse_scalar (yaml_dump_scalar v) = v := by
  cases v with
  | int n =>
    obtain ⟨c, rest, hcons⟩ := List.exists_cons_of_ne_nil (int_to_chars_ne_nil n)
    have hplain := int_to_chars_plain n c (by rw [hcons]; exact List.mem_cons_self _ _)
    have hsq : c ≠ squote := hplain.2.2.1
    simp only [yaml_dump_scalar]
    rw [hcons]
    simp only [yaml_parse_scalar, if_neg hsq]
    rw [← hcons, int_cell?_int_to_chars]
  | str s =>
    have hplain := plain_chars_spec s (by simpa [val_ok] using hv)
    by_cases hq : needs_quote s = true
    · simp only [yaml_dump_scalar, if_pos hq]
      rw [show squote :: s ++ [squote] = squote :: (s ++ [squote]) from rfl,
        yaml_parse_scalar_cons, if_pos rfl]
      have hg : (s ++ [squote]).getLast? = some squote := List.getLast?_concat _
      have hdl : (s ++ [squote]).dropLast = s := List.dropLast_concat
      have hall : (s ++ [squote]).dropLast.all (fun x => x != squote) = true := by
        rw [hdl]
        exact List.all_eq_true.mpr
          (fun c hc => by simpa [bne_iff_ne] using (hplain c hc).2.2.2)
      have hcond : (((s ++ [squote]).getLast? == some squote)
          && ((s ++ [squote]).dropLast.all fun x => x != squote)) = true := by
        rw [hg, hall]; simp
      rw [if_pos hcond, hdl]
    · have hq2 : needs_quote s = false := by simpa using hq
      simp only [yaml_dump_scalar, if_neg hq]
      have hpair : (int_cell? s).isSome = false ∧ s.isEmpty = false := by
        simpa [needs_quote, Bool.or_eq_false_iff] using hq2
      have hsne : s ≠ [] := by
        intro h0; rw [h0] at hpair; simp at hpair
      obtain ⟨c, rest, hcons⟩ := List.exists_cons_of_ne_nil hsne
      have hsq : c ≠ squote :=
        (hplain c (by rw [hcons]; exact List.mem_cons_self _ _)).2.2.2
      have hcell : int_cell? s = none :=
        Option.not_isSome_iff_eq_none.mp (by simp [hpair.1])
      rw [hcons]
      simp only [yaml_parse_scalar, if_neg hsq]
      rw [← hcons, hcell]

/-- The YAML line parser inverts the YAML line serialiser on
well-formed entries. -/
theorem yaml_parse_line_dump (e : Chars × YVal) (hk : key_ok e.1 = true)
    (hv : val_ok e.2 = true) : yaml_parse_line (yaml_line e) = some e := by
  obtain ⟨hkne, hkchars⟩ := key_ok_spec e.1 hk
  have hcolon : ∀ x ∈ e.1, (fun c => c != ':') x = true := fun x hx => by
    simpa [bne_iff_ne] using (hkchars x hx).2.2.2.2
  rw [yaml_parse_line, yaml_line]
  rw [dropWhile_append_stop e.1 ':' (' ' :: yaml_dump_scalar e.2) hcolon (by decide)]
  simp only []
  rw [takeWhile_append_stop e.1 ':' (' ' :: yaml_dump_scalar e.2) hcolon (by decide)]
  rw [yaml_parse_scalar_dump e.2 hv]

/-- A serialised YAML line is never empty. -/
theorem yaml_line_ne_nil (e : Chars × YVal) : yaml_line e ≠ [] := by
  rw [yaml_line]
  intro h
  rcases List.append_eq_nil.mp h with ⟨-, h2⟩
  exact List.cons_ne_nil _ _ h2

/-- Every serialised YAML line contains a colon. -/
theorem colon_mem_yaml_line (e : Chars × YVal) : ':' ∈ yaml_line e := by
  rw [yaml_line]
  exact List.mem_append.mpr (Or.inr (List.mem_cons_self _ _))

/-- Serialised scalars contain no comma, newline or double quote. -/
theorem yaml_dump_scalar_plain (v : YVal) (hv : val_ok v = true) :
    ∀ c ∈ yaml_dump_scalar v, c ≠ ',' ∧ c ≠ '\n' ∧ c ≠ dquote := by
  intro c hc
  cases v with
  | int n =>
    obtain ⟨h1, h2, -, h4, -⟩ := int_to_chars_plain n c hc
    exact ⟨h1, h2, h4⟩
  | str s =>
    have hplain := plain_chars_spec s (by simpa [val_ok] using hv)
    simp only [yaml_dump_scalar] at hc
    by_cases hq : needs_quote s = true
    · rw [if_pos hq] at hc
      rcases List.mem_cons.mp hc with rfl | hc2
      · exact ⟨by decide, by decide, by decide⟩
      · rcases List.mem_append.mp hc2 with h | h
        · obtain ⟨h1, h2, h3, -⟩ := hplain c h
          exact ⟨h1, h2, h3⟩
        · rcases List.mem_singleton.mp h with rfl
          exact ⟨by decide, by decide, by decide⟩
    · rw [if_neg hq] at hc
      obtain ⟨h1, h2, h3, -⟩ := hplain c hc
      exact ⟨h1, h2, h3⟩

/-- A serialised YAML line of a well-formed entry contains no
newline. -/
theorem newline_not_mem_yaml_line (e : Chars × YVal) (hk : key_ok e.1 = true)
    (hv : val_ok e.2 = true) : '\n' ∉ yaml_line e := by
  rw [yaml_line]
  intro h
  rcases List.mem_append.mp h with h | h
  · exact ((key_ok_spec e.1 hk).2 '\n' h).2.1 rfl
  · rcases List.mem_cons.mp h with h | h
    · exact absurd h (by decide)
    · rcases List.mem_cons.mp h with h | h
      · exact absurd h (by decide)
      · exact (yaml_dump_scalar_plain e.2 hv '\n' h).2.1 rfl

/-- The YAML loader inverts the YAML dumper on well-formed mappings, up
to the dumper sorting entries by key. -/
theorem yaml_load_yaml_dump (m : YMap) (hsafe : yaml_safe m = true) :
    yaml_load (yaml_dump m) = some (sort_by_key m) := by
  have hperm : (sort_by_key m).Perm m := List.perm_insertionSort _ m
  have hsafe2 : yaml_safe (sort_by_key m) = true := yaml_safe_of_perm hperm.symm hsafe
  cases hsm : sort_by_key m with
  | nil =>
    rw [yaml_dump, hsm]
    decide
  | cons e es =>
    have hmem : ∀ x ∈ e :: es, key_ok x.1 = true ∧ val_ok x.2 = true := by
      intro x hx
      exact yaml_safe_mem _ hsafe2 x (by rw [hsm]; exact hx)
    have hnl : ∀ l ∈ ((e :: es).map yaml_line) ++ [[]], '\n' ∉ l := by
      intro l hl
      rcases List.mem_append.mp hl with h | h
      · obtain ⟨x, hx2, rfl⟩ := List.mem_map.mp h
        obtain ⟨hk, hv⟩ := hmem x hx2
        exact newline_not_mem_yaml_line x hk hv
      · rcases List.mem_singleton.mp h with rfl
        exact List.not_mem_nil _
    have hsplit : (List.intercalate ['\n'] (((e :: es).map yaml_line) ++ [[]])).splitOn '\n'
        = ((e :: es).map yaml_line) ++ [[]] :=
      List.splitOn_intercalate (((e :: es).map yaml_line) ++ [[]]) '\n' hnl (by simp)
    have hfilter : ((((e :: es).map yaml_line) ++ [[]]).filter (fun x => !x.isEmpty))
        = (e :: es).map yaml_line := by
      rw [List.filter_append]
      have h1 : (([([] : Chars)]).filter (fun x => !x.isEmpty)) = [] := by simp
      rw [h1, List.append_nil]
      apply List.filter_eq_self.mpr
      intro l hl
      obtain ⟨x, hx2, rfl⟩ := List.mem_map.mp hl
      simpa using yaml_line_ne_nil x
    have hne2 : ((e :: es).map yaml_line) ≠ [[lbrace, rbrace]] := by
      intro hcontra
      have h1 : yaml_line e = [lbrace, rbrace] := by
        have h2 := congrArg List.head? hcontra
        simpa using h2
      have h2 : ':' ∈ yaml_line e := colon_mem_yaml_line e
      rw [h1] at h2
      exact absurd h2 (by decide)
    have hmapm : opt_mapM yaml_parse_line ((e :: es).map yaml_line) = some (e :: es) :=
      opt_mapM_map _ _ _ (fun x hx2 => yaml_parse_line_dump x (hmem x hx2).1 (hmem x hx2).2)
    rw [yaml_dump, hsm]
    simp only [yaml_load, hsplit, hfilter, if_neg hne2, hmapm]

/-- A head element is a member. -/
theorem mem_of_head?_eq_some {l : Chars} {c : Char} (h : l.head? = some c) : c ∈ l := by
  cases l with
  | nil => cases h
  | cons a t =>
    rw [List.head?_cons] at h
    rw [← Option.some.inj h]
    exact List.mem_cons_self _ _

/-- A serialised JSON scalar is never empty. -/
theorem json_dump_scalar_ne_nil (v : YVal) : json_dump_scalar v ≠ [] := by
  cases v with
  | int n => exact int_to_chars_ne_nil n
  | str s => simp [json_dump_scalar]

/-- A serialised JSON scalar contains no comma. -/
theorem json_dump_scalar_no_comma (v : YVal) (hv : val_ok v = true) :
    ∀ c ∈ json_dump_scalar v, c ≠ ',' := by
  intro c hc
  cases v with
  | int n => exact (int_to_chars_plain n c hc).1
  | str s =>
    have hplain := plain_chars_spec s (by simpa [val_ok] using hv)
    simp only [json_dump_scalar, List.cons_append] at hc
    rcases List.mem_cons.mp hc with rfl | hc2
    · decide
    · rcases List.mem_append.mp hc2 with h | h
      · exact (hplain c h).1
      · rcases List.mem_singleton.mp h with rfl
        decide

/-- A serialised JSON scalar starts and ends with a non-whitespace
character. -/
theorem json_dump_scalar_edge (v : YVal) (hv : val_ok v = true) :
    (∀ c, (json_dump_scalar v).head? = some c → ws c = false)
    ∧ (∀ c, (json_dump_scalar v).getLast? = some c → ws c = false) := by
  cases v with
  | int n =>
    constructor
    · intro c hc
      exact (int_to_chars_plain n c (mem_of_head?_eq_some hc)).2.2.2.2
    · intro c hc
      exact (int_to_chars_plain n c (List.mem_of_getLast?_eq_some hc)).2.2.2.2
  | str s =>
    constructor
    · intro c hc
      simp only [json_dump_scalar, List.cons_append, List.head?_cons] at hc
      rw [← Option.some.inj hc]
      decide
    · intro c hc
      simp only [json_dump_scalar] at hc
      rw [show (dquote :: s ++ [dquote]) = (dquote :: s) ++ [dquote] from rfl,
        List.getLast?_concat] at hc
      rw [← Option.some.inj hc]
      decide

/-- Unfolding of the JSON scalar parser on a non-empty scalar. -/
theorem json_parse_value_cons (c : Char) (rest : Chars) :
    json_parse_value (c :: rest) =
      if c = dquote then
        if (rest.getLast? == some dquote) && rest.dropLast.all (fun x => x != dquote) then
          some (YVal.str rest.dropLast)
        else none
      else (int_cell? (c :: rest)).map YVal.int := rfl

/-- The JSON scalar parser inverts the JSON scalar serialiser on
well-formed values. -/
theorem json_parse_value_dump (v : YVal) (hv : val_ok v = true) :
    json_parse_value (json_dump_scalar v) = some v := by
  cases v with
  | int n =>
    obtain ⟨c, rest, hcons⟩ := List.exists_cons_of_ne_nil (int_to_chars_ne_nil n)
    have hdq : c ≠ dquote :=
      (int_to_chars_plain n c (by rw [hcons]; exact List.mem_cons_self _ _)).2.2.2.1
    simp only [json_dump_scalar]
    rw [hcons, json_parse_value_cons, if_neg hdq, ← hcons, int_cell?_int_to_chars]
    rfl
  | str s =>
    have hplain := plain_chars_spec s (by simpa [val_ok] using hv)
    simp only [json_dump_scalar]
    rw [List.cons_append, json_parse_value_cons, if_pos rfl]
    have hg : (s ++ [dquote]).getLast? = some dquote := List.getLast?_concat _
    have hdl : (s ++ [dquote]).dropLast = s := List.dropLast_concat
    have hall : (s ++ [dquote]).dropLast.all (fun x => x != dquote) = true := by
      rw [hdl]
      exact List.all_eq_true.mpr
        (fun c hc => by simpa [bne_iff_ne] using (hplain c hc).2.2.1)
    have hcond : (((s ++ [dquote]).getLast? == some dquote)
        && (s ++ [dquote]).dropLast.all (fun x => x != dquote)) = true := by
      rw [hg, hall]; simp
    rw [if_pos hcond, hdl]

/-- Unfolding of the JSON member parser through a known trim. -/
theorem json_parse_entry_eq (piece : Chars) (c : Char) (rest : Chars)
    (h : trim_chars piece = c :: rest) :
    json_parse_entry piece =
      if c = dquote then
        match rest.dropWhile (fun x => x != dquote) with
        | _ :: ':' :: rest4 =>
          (json_parse_value (trim_chars rest4)).map
            (fun v => (rest.takeWhile (fun x => x != dquote), v))
        | _ => none
      else none := by
  rw [json_parse_entry, h]

/-- The JSON member parser reads back a serialised member surrounded by
whitespace. -/
theorem json_parse_entry_sandwich (a b : Chars) (e : Chars × YVal)
    (ha : ∀ c ∈ a, ws c = true) (hb : ∀ c ∈ b, ws c = true)
    (hk : key_ok e.1 = true) (hv : val_ok e.2 = true) :
    json_parse_entry (a ++ json_dump_entry e ++ b) = some e := by
  obtain ⟨k, v⟩ := e
  obtain ⟨-, hkchars⟩ := key_ok_spec k hk
  have hedge := json_dump_scalar_edge v hv
  have hsne := json_dump_scalar_ne_nil v
  have hshape : a ++ json_dump_entry (k, v) ++ b
      = (a ++ [' ', ' ']) ++ (dquote :: (k ++ dquote :: ':' :: ' ' :: json_dump_scalar v)) ++ b := by
    simp [json_dump_entry]
  have htrim : trim_chars (a ++ json_dump_entry (k, v) ++ b)
      = dquote :: (k ++ dquote :: ':' :: ' ' :: json_dump_scalar v) := by
    rw [hshape]
    apply trim_sandwich
    · intro c hc
      rcases List.mem_append.mp hc with h | h
      · exact ha c h
      · rcases List.mem_cons.mp h with rfl | h2
        · decide
        · rcases List.mem_singleton.mp h2 with rfl
          decide
    · exact hb
    · exact List.cons_ne_nil _ _
    · intro c hc
      rw [List.head?_cons] at hc
      rw [← Option.some.inj hc]
      decide
    · intro c hc
      have hre : dquote :: (k ++ dquote :: ':' :: ' ' :: json_dump_scalar v)
          = (dquote :: (k ++ [dquote, ':', ' '])) ++ json_dump_scalar v := by
        simp
      rw [hre, List.getLast?_append_of_ne_nil _ hsne] at hc
      exact hedge.2 c hc
  have hknoq : ∀ x ∈ k, (fun x => x != dquote) x = true := fun x hx => by
    simpa [bne_iff_ne] using (hkchars x hx).2.2.1
  rw [json_parse_entry_eq _ _ _ htrim, if_pos rfl,
    dropWhile_append_stop k dquote (':' :: ' ' :: json_dump_scalar v) hknoq (by decide)]
  show (json_parse_value (trim_chars (' ' :: json_dump_scalar v))).map
      (fun w => ((k ++ dquote :: ':' :: ' ' :: json_dump_scalar v).takeWhile
        (fun x => x != dquote), w)) = some (k, v)
  rw [takeWhile_append_stop k dquote (':' :: ' ' :: json_dump_scalar v) hknoq (by decide)]
  have h0 : (' ' :: json_dump_scalar v) = [' '] ++ json_dump_scalar v ++ [] := by simp
  have htrimv : trim_chars (' ' :: json_dump_scalar v) = json_dump_scalar v := by
    rw [h0]
    exact trim_sandwich [' '] (json_dump_scalar v) []
      (fun c hc => by rcases List.mem_singleton.mp hc with rfl; decide)
      (fun c hc => absurd hc (List.not_mem_nil c)) hsne hedge.1 hedge.2
  rw [htrimv, json_parse_value_dump v hv]
  rfl

/-- Decoration of a non-empty member list is non-empty. -/
theorem decorate_ne_nil (p : Chars) (ps : List Chars) : decorate (p :: ps) ≠ [] := by
  cases ps <;> simp [decorate]

/-- Every decorated piece is a member with a leading newline and
possibly a trailing newline. -/
theorem decorate_pieces (ls : List Chars) :
    ∀ p ∈ decorate ls, ∃ e ∈ ls, p = '\n' :: e ∨ p = '\n' :: (e ++ ['\n']) := by
  induction ls with
  | nil => intro p hp; simp [decorate] at hp
  | cons x xs ih =>
    cases xs with
    | nil =>
      intro p hp
      simp only [decorate, List.mem_singleton] at hp
      exact ⟨x, List.mem_cons_self _ _, Or.inr hp⟩
    | cons y ys =>
      intro p hp
      simp only [decorate, List.mem_cons] at hp
      rcases hp with rfl | hp2
      · exact ⟨x, List.mem_cons_self _ _, Or.inl rfl⟩
      · obtain ⟨e, he, hor⟩ := ih p hp2
        exact ⟨e, List.mem_cons_of_mem _ he, hor⟩

/-- A serialised JSON member of a well-formed entry contains no
comma. -/
theorem json_dump_entry_no_comma (e : Chars × YVal) (hk : key_ok e.1 = true)
    (hv : val_ok e.2 = true) : ',' ∉ json_dump_entry e := by
  obtain ⟨k, v⟩ := e
  obtain ⟨-, hkchars⟩ := key_ok_spec k hk
  intro h
  rw [show json_dump_entry (k, v)
    = (' ' :: ' ' :: dquote :: k) ++ (dquote :: ':' :: ' ' :: json_dump_scalar v) from rfl] at h
  rcases List.mem_append.mp h with h1 | h1
  · rcases List.mem_cons.mp h1 with h2 | h2
    · exact absurd h2 (by decide)
    · rcases List.mem_cons.mp h2 with h3 | h3
      · exact absurd h3 (by decide)
      · rcases List.mem_cons.mp h3 with h4 | h4
        · exact absurd h4 (by decide)
        · exact (hkchars ',' h4).1 rfl
  · rcases List.mem_cons.mp h1 with h2 | h2
    · exact absurd h2 (by decide)
    · rcases List.mem_cons.mp h2 with h3 | h3
      · exact absurd h3 (by decide)
      · rcases List.mem_cons.mp h3 with h4 | h4
        · exact absurd h4 (by decide)
        · exact json_dump_scalar_no_comma v hv ',' h4 rfl

/-- Every decorated serialised member of a well-formed mapping is
comma-free. -/
theorem decorate_comma_free (l : YMap)
    (hmem : ∀ e ∈ l, key_ok e.1 = true ∧ val_ok e.2 = true) :
    ∀ p ∈ decorate (l.map json_dump_entry), ',' ∉ p := by
  intro p hp hmemc
  obtain ⟨E, hE, hor⟩ := decorate_pieces _ p hp
  obtain ⟨x, hx, rfl⟩ := List.mem_map.mp hE
  obtain ⟨hk, hv⟩ := hmem x hx
  have hnc := json_dump_entry_no_comma x hk hv
  rcases hor with rfl | rfl
  · rcases List.mem_cons.mp hmemc with h | h
    · exact absurd h (by decide)
    · exact hnc h
  · rcases List.mem_cons.mp hmemc with h | h
    · exact absurd h (by decide)
    · rcases List.mem_append.mp h with h2 | h2
      · exact hnc h2
      · rcases List.mem_singleton.mp h2 with h3
        exact absurd h3 (by decide)

/-- Membership in the first piece gives membership in an intercalated
join. -/
theorem mem_intercalate_first (x : Char) (p : Chars) (ps : List Chars) (sep : Chars)
    (h : x ∈ p) : x ∈ List.intercalate sep (p :: ps) := by
  cases ps with
  | nil =>
    have h1 : List.intercalate sep [p] = p := by simp [List.intercalate]
    rw [h1]; exact h
  | cons q qs =>
    have h1 : List.intercalate sep (p :: q :: qs)
        = p ++ (sep ++ List.intercalate sep (q :: qs)) := by
      simp [List.intercalate, List.intersperse]
    rw [h1]
    exact List.mem_append.mpr (Or.inl h)

/-- Every serialised JSON member contains a double quote. -/
theorem dquote_mem_json_dump_entry (e : Chars × YVal) : dquote ∈ json_dump_entry e := by
  rw [show json_dump_entry e
    = (' ' :: ' ' :: dquote :: e.1) ++ (dquote :: ':' :: ' ' :: json_dump_scalar e.2) from rfl]
  exact List.mem_append.mpr (Or.inl (List.mem_cons_of_mem _
    (List.mem_cons_of_mem _ (List.mem_cons_self _ _))))

/-- Unfolding of the JSON object parser on a non-empty text. -/
theorem json_parse_cons (c : Char) (rest : Chars) :
    json_parse (c :: rest) =
      if c = lbrace ∧ rest.getLast? = some rbrace then
        if trim_chars rest.dropLast = [] then some []
        else opt_mapM json_parse_entry (rest.dropLast.splitOn ',')
      else none := rfl

/-- Parsing the decorated serialised members of a well-formed mapping
recovers the mapping. -/
theorem opt_mapM_decorate (l : YMap)
    (h : ∀ e ∈ l, key_ok e.1 = true ∧ val_ok e.2 = true) :
    opt_mapM json_parse_entry (decorate (l.map json_dump_entry)) = some l := by
  induction l with
  | nil => rfl
  | cons e es ih =>
    obtain ⟨hk, hv⟩ := h e (List.mem_cons_self _ _)
    cases es with
    | nil =>
      have h1 := json_parse_entry_sandwich ['\n'] ['\n'] e (by decide) (by decide) hk hv
      have hsh : ('\n' :: (json_dump_entry e ++ ['\n']))
          = ['\n'] ++ json_dump_entry e ++ ['\n'] := by simp
      simp only [List.map_cons, List.map_nil, decorate, opt_mapM]
      rw [hsh, h1]
    | cons e2 es2 =>
      have h1 := json_parse_entry_sandwich ['\n'] [] e (by decide) (by decide) hk hv
      have hsh : ('\n' :: json_dump_entry e) = ['\n'] ++ json_dump_entry e ++ [] := by simp
      have ih2 := ih (fun x hx => h x (List.mem_cons_of_mem _ hx))
      simp only [List.map_cons] at ih2 ⊢
      simp only [decorate, opt_mapM]
      rw [hsh, h1, ih2]

/-- The JSON object parser inverts the JSON object serialiser on
well-formed mappings. -/
theorem json_parse_json_dump (l : YMap) (hsafe : yaml_safe l = true) :
    json_parse (json_dump l) = some l := by
  cases l with
  | nil => decide
  | cons e es =>
    have hmem : ∀ x ∈ e :: es, key_ok x.1 = true ∧ val_ok x.2 = true :=
      yaml_safe_mem _ hsafe
    have hdump : json_dump (e :: es)
        = lbrace :: (List.intercalate [',']
            (decorate ((e :: es).map json_dump_entry)) ++ [rbrace]) := rfl
    have hg : (List.intercalate [','] (decorate ((e :: es).map json_dump_entry))
        ++ [rbrace]).getLast? = some rbrace := List.getLast?_concat _
    have hdl : (List.intercalate [','] (decorate ((e :: es).map json_dump_entry))
        ++ [rbrace]).dropLast
        = List.intercalate [','] (decorate ((e :: es).map json_dump_entry)) :=
      List.dropLast_concat
    have hdqmem : dquote ∈ List.intercalate [',']
        (decorate ((e :: es).map json_dump_entry)) := by
      cases es with
      | nil =>
        show dquote ∈ List.intercalate [','] ['\n' :: (json_dump_entry e ++ ['\n'])]
        apply mem_intercalate_first
        exact List.mem_cons_of_mem _
          (List.mem_append.mpr (Or.inl (dquote_mem_json_dump_entry e)))
      | cons e2 es2 =>
        show dquote ∈ List.intercalate [','] (('\n' :: json_dump_entry e)
          :: decorate ((e2 :: es2).map json_dump_entry))
        apply mem_intercalate_first
        exact List.mem_cons_of_mem _ (dquote_mem_json_dump_entry e)
    have htne : trim_chars (List.intercalate [',']
        (decorate ((e :: es).map json_dump_entry))) ≠ [] := by
      intro hcontra
      have hws := all_ws_of_trim_eq_nil _ hcontra dquote hdqmem
      exact absurd hws (by decide)
    have hsplit : (List.intercalate [',']
        (decorate ((e :: es).map json_dump_entry))).splitOn ','
        = decorate ((e :: es).map json_dump_entry) := by
      apply List.splitOn_intercalate
      · intro p hp
        exact decorate_comma_free _ hmem p hp
      · rw [List.map_cons]
        exact decorate_ne_nil _ _
    rw [hdump, json_parse_cons, if_pos ⟨rfl, hg⟩, hdl, if_neg htne, hsplit,
      opt_mapM_decorate _ hmem]

/-- Association lookup is invariant under permutation of a mapping with
distinct keys. -/
theorem alookup_perm {a b : YMap} (hp : a.Perm b) :
    (a.map Prod.fst).Nodup → ∀ k, alookup k a = alookup k b := by
  induction hp with
  | nil => intro _ k; rfl
  | cons x h ih =>
    intro hnd k
    simp only [List.map_cons, List.nodup_cons] at hnd
    obtain ⟨-, hnd2⟩ := hnd
    simp only [alookup]
    by_cases hk : k = x.1
    · rw [if_pos hk, if_pos hk]
    · rw [if_neg hk, if_neg hk]
      exact ih hnd2 k
  | swap x y l =>
    intro hnd k
    simp only [List.map_cons, List.nodup_cons, List.mem_cons] at hnd
    obtain ⟨hy, -, -⟩ := hnd
    have hxy : y.1 ≠ x.1 := fun h => hy (Or.inl h)
    simp only [alookup]
    by_cases hk1 : k = y.1
    · rw [if_pos hk1, if_neg (fun hc : k = x.1 => hxy (hk1.symm.trans hc)), if_pos hk1]
    · rw [if_neg hk1]
      by_cases hk2 : k = x.1
      · rw [if_pos hk2, if_pos hk2]
      · rw [if_neg hk2, if_neg hk2, if_neg hk1]
  | trans h1 h2 ih1 ih2 =>
    intro hnd k
    have hnd2 := ((h1.map Prod.fst).nodup_iff).mp hnd
    rw [ih1 hnd k, ih2 hnd2 k]

/-- C7: for every well-formed mapping-shaped JSON text, running
json_to_yaml and then yaml_to_json yields JSON text that parses to a
mapping with exactly the same key-value associations as the input
(semantic equality; the key order may differ because yaml.dump sorts
keys). -/
theorem yaml_json_roundtrip (x : String) (m : YMap)
    (hx : json_parse x.toList = some m)
    (hsafe : yaml_safe m = true)
    (hnd : (m.map Prod.fst).Nodup) :
    ∃ y z, json_to_yaml x = some y ∧ yaml_to_json y = some z
      ∧ ∃ m2, json_parse z.toList = some m2 ∧ ∀ k, alookup k m2 = alookup k m := by
  have hperm : (sort_by_key m).Perm m := List.perm_insertionSort _ m
  have hsafe2 : yaml_safe (sort_by_key m) = true := yaml_safe_of_perm hperm.symm hsafe
  have hnd2 : ((sort_by_key m).map Prod.fst).Nodup :=
    ((hperm.map Prod.fst).nodup_iff).mpr hnd
  refine ⟨String.mk (yaml_dump m), String.mk (json_dump (sort_by_key m)), ?_, ?_,
    sort_by_key m, ?_, ?_⟩
  · rw [json_to_yaml, hx]; rfl
  · rw [yaml_to_json]
    have htl : (String.mk (yaml_dump m)).toList = yaml_dump m := rfl
    rw [htl, yaml_load_yaml_dump m hsafe]
    rfl
  · have htl : (String.mk (json_dump (sort_by_key m))).toList
        = json_dump (sort_by_key m) := rfl
    rw [htl]
    exact json_parse_json_dump _ hsafe2
  · exact alookup_perm hperm hnd2

theorem yaml_json_roundtrip_witness :
    ∃ y z, json_to_yaml "\x7b\"name\": \"John\", \"age\": 30\x7d" = some y
      ∧ yaml_to_json y = some z
      ∧ ∃ m2, json_parse z.toList = some m2
        ∧ ∀ k, alookup k m2 = alookup k
          [("name".toList, YVal.str "John".toList), ("age".toList, YVal.int 30)] :=
  yaml_json_roundtrip "\x7b\"name\": \"John\", \"age\": 30\x7d"
    [("name".toList, YVal.str "John".toList), ("age".toList, YVal.int 30)]
    (by decide) (by decide) (by decide)
